import Mathlib

/-!
Verification development for the Learnova AI learning-management system.

The repository ships a Next.js frontend (under frontend/) and documents a
FastAPI backend (ingestion pipeline, vector index client, retriever, context
assembler).  The frontend streaming chat client and the API helpers are
embedded here directly from their TypeScript sources; the backend pipeline
components, whose Python sources are not part of the provided tree, are
modelled from the specification.
-/

namespace Learnova

/- ## Chat page streaming client

Embedded from the ChatPage component (frontend/app/chat/page.tsx).
streamFromMessages primes the history with an empty assistant placeholder,
then either streams chunks (appending each decoded chunk to the last
assistant message of the history) or, when the streaming response is not ok
or has no body, falls back to one blocking call whose whole answer replaces
the placeholder content.  The Stop button aborts the in-flight request; the
read loop then rejects with AbortError, which the catch clause turns into an
empty addition, so nothing further is appended. -/

inductive Role where
  | user
  | assistant
deriving DecidableEq, Repr

structure Msg where
  role : Role
  content : String
deriving DecidableEq, Repr

structure Chat where
  id : String
  name : String
  messages : List Msg
deriving DecidableEq, Repr

/-- Rewrite the content of the first assistant message (scanning from the
front) with f, leaving everything else unchanged.  The source scans the
history array from its back, which is the same traversal on the reversed
list. -/
def updFirstAssistant (f : String → String) : List Msg → List Msg
  | [] => []
  | m :: rest =>
    if m.role = Role.assistant then { m with content := f m.content } :: rest
    else m :: updFirstAssistant f rest

/-- The setHistory updater used by streamFromMessages: walk the history from
its end and rewrite the content of the last assistant message with f. -/
def updLastAssistant (f : String → String) (h : List Msg) : List Msg :=
  (updFirstAssistant f h.reverse).reverse

/-- One observable event of the streaming read loop: a decoded text chunk,
the acknowledgement of an abort (reader.read rejecting with AbortError), or a
non-abort error carrying its message. -/
inductive StreamEvent where
  | chunk (s : String)
  | abortAck
  | failure (s : String)
deriving DecidableEq, Repr

/-- The read loop of streamFromMessages: every chunk is appended to the last
assistant message; an acknowledged abort ends the loop and the catch clause
appends nothing (it computes an empty addition for AbortError); a non-abort
error appends its message once and ends the loop. -/
def processEvents : List StreamEvent → List Msg → List Msg
  | [], h => h
  | StreamEvent.chunk s :: rest, h =>
    processEvents rest (updLastAssistant (fun c => c ++ s) h)
  | StreamEvent.abortAck :: _, h => h
  | StreamEvent.failure s :: _, h => updLastAssistant (fun c => c ++ s) h

/-- streamFromMessages from ChatPage: prime the history with the given
messages plus an empty assistant placeholder; if the streaming response is
not ok or has no body, perform the blocking fallback call and write its whole
response text into the placeholder; otherwise run the streaming read loop on
the observed events. -/
def streamFromMessages (messages : List Msg) (resOk hasBody : Bool)
    (fallbackText : String) (events : List StreamEvent) : List Msg :=
  let h0 := messages ++ [{ role := Role.assistant, content := "" }]
  if !resOk || !hasBody then updLastAssistant (fun _ => fallbackText) h0
  else processEvents events h0

/-- The keep-current-chat-in-sync effect of ChatPage: the chat whose id is
currentId gets the final history as its messages, and the chats list is then
written verbatim (as JSON) to localStorage.  The persisted value is exactly
this list. -/
def syncAndPersist (chats : List Chat) (currentId : String) (h : List Msg) :
    List Chat :=
  chats.map (fun c => if c.id = currentId then { c with messages := h } else c)

theorem updLastAssistant_append (f : String → String) (msgs : List Msg)
    (c : String) :
    updLastAssistant f (msgs ++ [{ role := Role.assistant, content := c }]) =
      msgs ++ [{ role := Role.assistant, content := f c }] := by
  simp [updLastAssistant, updFirstAssistant]

theorem processEvents_chunks (frags : List String) (msgs : List Msg)
    (c : String) :
    processEvents (frags.map StreamEvent.chunk)
        (msgs ++ [{ role := Role.assistant, content := c }]) =
      msgs ++ [{ role := Role.assistant,
                 content := frags.foldl (fun r s => r ++ s) c }] := by
  induction frags generalizing c with
  | nil => rfl
  | cons f fs ih =>
    simp only [List.map_cons, processEvents, updLastAssistant_append,
      List.foldl_cons]
    exact ih (c ++ f)

theorem processEvents_abort (pre : List String) (post : List StreamEvent)
    (msgs : List Msg) (c : String) :
    processEvents (pre.map StreamEvent.chunk ++ StreamEvent.abortAck :: post)
        (msgs ++ [{ role := Role.assistant, content := c }]) =
      msgs ++ [{ role := Role.assistant,
                 content := pre.foldl (fun r s => r ++ s) c }] := by
  induction pre generalizing c with
  | nil => rfl
  | cons f fs ih =>
    simp only [List.map_cons, List.cons_append, processEvents,
      updLastAssistant_append, List.foldl_cons]
    exact ih (c ++ f)

/-- C9: for every completed (uncancelled) streamed generation, the final
answer text of the last assistant message equals the concatenation, in
arrival order, of all streamed text fragments received from the generation
endpoint. -/
theorem final_answer_is_join_of_fragments (messages : List Msg)
    (frags : List String) :
    streamFromMessages messages true true "" (frags.map StreamEvent.chunk) =
      messages ++ [{ role := Role.assistant, content := String.join frags }] := by
  simp only [streamFromMessages, Bool.not_true, Bool.or_self, Bool.false_eq_true,
    if_false, String.join]
  exact processEvents_chunks frags messages ""

/-- C6: once the caller's cancellation is acknowledged (the aborted read
surfaces), no further text fragment is appended: whatever events follow the
acknowledgement, the final history equals the one obtained with no events
after the acknowledgement, and the answer text is exactly the fragments
accumulated before it. -/
theorem cancellation_stops_fragments (messages : List Msg) (pre : List String)
    (post : List StreamEvent) :
    streamFromMessages messages true true ""
        (pre.map StreamEvent.chunk ++ StreamEvent.abortAck :: post) =
      messages ++ [{ role := Role.assistant, content := String.join pre }] ∧
    streamFromMessages messages true true ""
        (pre.map StreamEvent.chunk ++ StreamEvent.abortAck :: post) =
      streamFromMessages messages true true ""
        (pre.map StreamEvent.chunk ++ [StreamEvent.abortAck]) := by
  constructor
  · simp only [streamFromMessages, Bool.not_true, Bool.or_self,
      Bool.false_eq_true, if_false, String.join]
    exact processEvents_abort pre post messages ""
  · simp only [streamFromMessages, Bool.not_true, Bool.or_self,
      Bool.false_eq_true, if_false]
    rw [processEvents_abort pre post messages "",
      processEvents_abort pre [] messages ""]

/-- C7: when the streaming endpoint is unavailable (response not ok, or ok
without a body), the client falls back to a single blocking call and delivers
the whole answer as one terminal fragment; when that whole answer is the
concatenation of the fragments the streaming path would have produced, the
final history is identical to the streaming path's final history. -/
theorem fallback_single_terminal_fragment (messages : List Msg)
    (hasBody : Bool) (a : String) (events : List StreamEvent)
    (frags : List String) :
    streamFromMessages messages false hasBody a events =
      messages ++ [{ role := Role.assistant, content := a }] ∧
    streamFromMessages messages true false a events =
      messages ++ [{ role := Role.assistant, content := a }] ∧
    streamFromMessages messages false hasBody (String.join frags) events =
      streamFromMessages messages true true "" (frags.map StreamEvent.chunk) := by
  refine ⟨?_, ?_, ?_⟩
  · simp only [streamFromMessages, Bool.not_false, Bool.true_or, if_true]
    exact updLastAssistant_append (fun _ => a) messages ""
  · simp only [streamFromMessages, Bool.not_false, Bool.or_true, if_true]
    exact updLastAssistant_append (fun _ => a) messages ""
  · simp only [streamFromMessages, Bool.not_false, Bool.true_or, if_true,
      Bool.not_true, Bool.or_self, Bool.false_eq_true, if_false]
    rw [updLastAssistant_append (fun _ => String.join frags) messages "",
      processEvents_chunks frags messages ""]
    rfl

/-- C8, counterexample: a generation cancelled after the fragments "Hel" and
"lo" is persisted exactly like a completed generation of the same fragments —
the stored chat carries the plain assistant message "Hello" and no marker of
any kind distinguishes the cancelled exchange from the completed one. -/
theorem cancelled_exchange_no_marker_counterexample :
    syncAndPersist [{ id := "1", name := "New chat", messages := [] }] "1"
        (streamFromMessages [{ role := Role.user, content := "q" }] true true ""
          [StreamEvent.chunk "Hel", StreamEvent.chunk "lo",
           StreamEvent.abortAck]) =
      syncAndPersist [{ id := "1", name := "New chat", messages := [] }] "1"
        (streamFromMessages [{ role := Role.user, content := "q" }] true true ""
          [StreamEvent.chunk "Hel", StreamEvent.chunk "lo"]) ∧
    syncAndPersist [{ id := "1", name := "New chat", messages := [] }] "1"
        (streamFromMessages [{ role := Role.user, content := "q" }] true true ""
          [StreamEvent.chunk "Hel", StreamEvent.chunk "lo",
           StreamEvent.abortAck]) =
      [{ id := "1", name := "New chat",
         messages := [{ role := Role.user, content := "q" },
                      { role := Role.assistant, content := "Hello" }] }] := by
  constructor <;> decide

/-- C8 (amended): partially generated text present at cancellation is kept
and persisted as an ordinary assistant message; the persisted chats after a
cancelled generation are identical to those after a completed generation of
the same fragments, so no marker distinguishes the two. -/
theorem cancelled_partial_persisted_as_plain_message (chats : List Chat)
    (cid : String) (messages : List Msg) (pre : List String)
    (post : List StreamEvent) :
    syncAndPersist chats cid
        (streamFromMessages messages true true ""
          (pre.map StreamEvent.chunk ++ StreamEvent.abortAck :: post)) =
      syncAndPersist chats cid
        (streamFromMessages messages true true "" (pre.map StreamEvent.chunk)) := by
  simp only [streamFromMessages, Bool.not_true, Bool.or_self,
    Bool.false_eq_true, if_false]
  rw [processEvents_abort pre post messages "", processEvents_chunks pre messages ""]

/- ## API helpers

Embedded from frontend/lib/api.ts.  Each helper strips a leading slash from
the path, performs a fetch (GET, POST with a JSON body, or DELETE — the
network is a parameter here), and handles the response with the code that the
three helpers repeat verbatim: on status 401 with a window present, remove
the stored JWT, redirect to /login and throw Unauthorized; otherwise, on a
non-ok response, throw an error carrying the response text; otherwise parse
and return the JSON body. -/

/-- Browser-visible client state: whether a window object exists (false
during server-side rendering), the JWT in localStorage, and the current
location. -/
structure ClientState where
  hasWindow : Bool
  jwt : Option String
  location : String
deriving DecidableEq, Repr

/-- An HTTP response as the helpers observe it: status code, body as text,
body as parsed JSON (both bodies modelled as strings). -/
structure HttpResponse where
  status : Nat
  bodyText : String
  bodyJson : String
deriving DecidableEq, Repr

/-- res.ok of the fetch API: status in the inclusive range 200-299. -/
def responseOk (r : HttpResponse) : Bool :=
  decide (200 ≤ r.status) && decide (r.status < 300)

inductive ApiError where
  | unauthorized
  | httpError (text : String)
deriving DecidableEq, Repr

/-- path.replace of the helpers: drop one leading slash. -/
def stripSlash (path : String) : String :=
  if path.startsWith "/" then path.drop 1 else path

/-- The response handling repeated verbatim in apiGet, apiPost and apiDelete:
401 with a window clears the JWT, redirects to /login and throws
Unauthorized; any other non-ok response throws the response text; an ok
response returns the parsed body. -/
def handleResponse (st : ClientState) (res : HttpResponse) :
    ClientState × Except ApiError String :=
  if res.status = 401 ∧ st.hasWindow = true then
    ({ st with jwt := none, location := "/login" }, Except.error ApiError.unauthorized)
  else if responseOk res = false then
    (st, Except.error (ApiError.httpError res.bodyText))
  else
    (st, Except.ok res.bodyJson)

/-- apiGet: GET the path (with auth headers) and handle the response. -/
def apiGet (st : ClientState) (fetchGet : String → HttpResponse)
    (path : String) : ClientState × Except ApiError String :=
  handleResponse st (fetchGet (stripSlash path))

/-- apiPost: POST the JSON body to the path and handle the response. -/
def apiPost (st : ClientState) (fetchPost : String → String → HttpResponse)
    (path body : String) : ClientState × Except ApiError String :=
  handleResponse st (fetchPost (stripSlash path) body)

/-- apiDelete: DELETE the path and handle the response. -/
def apiDelete (st : ClientState) (fetchDelete : String → HttpResponse)
    (path : String) : ClientState × Except ApiError String :=
  handleResponse st (fetchDelete (stripSlash path))

theorem handleResponse_spec (st : ClientState) (res : HttpResponse)
    (hw : st.hasWindow = true) :
    (res.status = 401 →
      handleResponse st res =
        ({ st with jwt := none, location := "/login" },
          Except.error ApiError.unauthorized)) ∧
    (responseOk res = false →
      ∀ v, (handleResponse st res).2 ≠ Except.ok v) ∧
    (res.status ≠ 401 → responseOk res = false →
      handleResponse st res = (st, Except.error (ApiError.httpError res.bodyText))) ∧
    (∀ v, (handleResponse st res).2 = Except.ok v → responseOk res = true) := by
  refine ⟨?_, ?_, ?_, ?_⟩
  · intro h401
    simp [handleResponse, h401, hw]
  · intro hnok v
    by_cases h401 : res.status = 401
    · simp [handleResponse, h401, hw]
    · simp [handleResponse, h401, hnok]
  · intro h401 hnok
    simp [handleResponse, h401, hnok]
  · intro v hok
    by_cases h401 : res.status = 401
    · simp [handleResponse, h401, hw] at hok
    · by_cases hnok : responseOk res = false
      · simp [handleResponse, h401, hnok] at hok
      · simpa using hnok

/-- C10: for every path and body, apiGet, apiPost and apiDelete never return
a value on a non-ok response: on status 401 (window present) they remove the
stored JWT, redirect to /login and throw Unauthorized; on any other non-ok
status they throw an error carrying the response text; a value is returned
only when the response status is ok. -/
theorem api_helpers_error_handling (st : ClientState)
    (fetchGet fetchDelete : String → HttpResponse)
    (fetchPost : String → String → HttpResponse) (path body : String)
    (hw : st.hasWindow = true) :
    ((fetchGet (stripSlash path)).status = 401 →
      apiGet st fetchGet path =
        ({ st with jwt := none, location := "/login" },
          Except.error ApiError.unauthorized)) ∧
    (responseOk (fetchGet (stripSlash path)) = false →
      ∀ v, (apiGet st fetchGet path).2 ≠ Except.ok v) ∧
    ((fetchGet (stripSlash path)).status ≠ 401 →
      responseOk (fetchGet (stripSlash path)) = false →
      apiGet st fetchGet path =
        (st, Except.error (ApiError.httpError (fetchGet (stripSlash path)).bodyText))) ∧
    (∀ v, (apiGet st fetchGet path).2 = Except.ok v →
      responseOk (fetchGet (stripSlash path)) = true) ∧
    ((fetchPost (stripSlash path) body).status = 401 →
      apiPost st fetchPost path body =
        ({ st with jwt := none, location := "/login" },
          Except.error ApiError.unauthorized)) ∧
    (responseOk (fetchPost (stripSlash path) body) = false →
      ∀ v, (apiPost st fetchPost path body).2 ≠ Except.ok v) ∧
    ((fetchPost (stripSlash path) body).status ≠ 401 →
      responseOk (fetchPost (stripSlash path) body) = false →
      apiPost st fetchPost path body =
        (st, Except.error (ApiError.httpError (fetchPost (stripSlash path) body).bodyText))) ∧
    (∀ v, (apiPost st fetchPost path body).2 = Except.ok v →
      responseOk (fetchPost (stripSlash path) body) = true) ∧
    ((fetchDelete (stripSlash path)).status = 401 →
      apiDelete st fetchDelete path =
        ({ st with jwt := none, location := "/login" },
          Except.error ApiError.unauthorized)) ∧
    (responseOk (fetchDelete (stripSlash path)) = false →
      ∀ v, (apiDelete st fetchDelete path).2 ≠ Except.ok v) ∧
    ((fetchDelete (stripSlash path)).status ≠ 401 →
      responseOk (fetchDelete (stripSlash path)) = false →
      apiDelete st fetchDelete path =
        (st, Except.error (ApiError.httpError (fetchDelete (stripSlash path)).bodyText))) ∧
    (∀ v, (apiDelete st fetchDelete path).2 = Except.ok v →
      responseOk (fetchDelete (stripSlash path)) = true) := by
  have hg := handleResponse_spec st (fetchGet (stripSlash path)) hw
  have hp := handleResponse_spec st (fetchPost (stripSlash path) body) hw
  have hd := handleResponse_spec st (fetchDelete (stripSlash path)) hw
  exact ⟨hg.1, hg.2.1, hg.2.2.1, hg.2.2.2, hp.1, hp.2.1, hp.2.2.1, hp.2.2.2,
    hd.1, hd.2.1, hd.2.2.1, hd.2.2.2⟩

/-- Witness for C10: a concrete client state and concrete responses
exercising the theorem. -/
theorem api_helpers_error_handling_witness :
    ({ hasWindow := true, jwt := some "tok", location := "/" } :
        ClientState).hasWindow = true ∧
    (apiGet { hasWindow := true, jwt := some "tok", location := "/" }
        (fun _ => { status := 401, bodyText := "no", bodyJson := "" }) "/courses" =
      ({ hasWindow := true, jwt := none, location := "/login" },
        Except.error ApiError.unauthorized)) ∧
    (apiPost { hasWindow := true, jwt := some "tok", location := "/" }
        (fun _ _ => { status := 500, bodyText := "boom", bodyJson := "" })
        "/upload" "data" =
      ({ hasWindow := true, jwt := some "tok", location := "/" },
        Except.error (ApiError.httpError "boom"))) := by
  refine ⟨rfl, ?_, ?_⟩
  · exact (api_helpers_error_handling
      { hasWindow := true, jwt := some "tok", location := "/" }
      (fun _ => { status := 401, bodyText := "no", bodyJson := "" })
      (fun _ => { status := 401, bodyText := "no", bodyJson := "" })
      (fun _ _ => { status := 401, bodyText := "no", bodyJson := "" })
      "/courses" "" rfl).1 rfl
  · exact (api_helpers_error_handling
      { hasWindow := true, jwt := some "tok", location := "/" }
      (fun _ => { status := 500, bodyText := "boom", bodyJson := "" })
      (fun _ => { status := 500, bodyText := "boom", bodyJson := "" })
      (fun _ _ => { status := 500, bodyText := "boom", bodyJson := "" })
      "/upload" "data" rfl).2.2.2.2.2.2.1 (by decide) (by decide)

/- ## Context assembler

Modelled from the spec: the backend module that assembles retrieved chunks
into a prompt context (spec section 4.5) is not part of the provided source
tree, so it is modelled from the specification text: chunks are included
greedily in rank order until adding the next chunk would exceed the budget;
the default policy is strict rank order with early stop. -/

/-- A retrieved chunk as ranked for context assembly; size is its character
or token count. -/
structure RankedChunk where
  rank : Nat
  size : Nat
deriving DecidableEq, Repr

/-- Modelled from the spec: the greedy loop of assemble — include the next
chunk when the running total stays within the budget, stop at the first chunk
whose addition would exceed it. -/
def assembleGo (budget : Nat) : List RankedChunk → Nat → List RankedChunk
  | [], _ => []
  | c :: cs, used =>
    if used + c.size ≤ budget then c :: assembleGo budget cs (used + c.size)
    else []

/-- Modelled from the spec: assemble(rankedChunks, budget) with the default
strict-rank-order early-stop policy. -/
def assemble (rankedChunks : List RankedChunk) (budget : Nat) :
    List RankedChunk :=
  assembleGo budget rankedChunks 0

/-- Total size of an assembled context. -/
def totalSize (cs : List RankedChunk) : Nat :=
  (cs.map (fun c => c.size)).sum

theorem assembleGo_size_le (budget : Nat) :
    ∀ (cs : List RankedChunk) (used : Nat),
      totalSize (assembleGo budget cs used) ≤ budget - used
  | [], _ => by simp [assembleGo, totalSize]
  | c :: cs, used => by
    by_cases h : used + c.size ≤ budget
    · have ih := assembleGo_size_le budget cs (used + c.size)
      simp only [assembleGo, if_pos h, totalSize, List.map_cons, List.sum_cons]
      simp only [totalSize] at ih
      omega
    · simp [assembleGo, if_neg h, totalSize]

theorem assembleGo_take (budget : Nat) :
    ∀ (cs : List RankedChunk) (used : Nat),
      ∃ k, assembleGo budget cs used = cs.take k
  | [], _ => ⟨0, rfl⟩
  | c :: cs, used => by
    by_cases h : used + c.size ≤ budget
    · obtain ⟨k, hk⟩ := assembleGo_take budget cs (used + c.size)
      exact ⟨k + 1, by simp [assembleGo, if_pos h, hk]⟩
    · exact ⟨0, by simp [assembleGo, if_neg h]⟩

/-- C4: the assembled context never exceeds the budget, it is an in-order
prefix of the ranked chunks (strict rank order with early stop), and for
chunks of sizes 300, 300, 300 with budget 500 exactly one chunk is
included. -/
theorem assemble_within_budget (rankedChunks : List RankedChunk)
    (budget : Nat) :
    totalSize (assemble rankedChunks budget) ≤ budget ∧
    (∃ k, assemble rankedChunks budget = rankedChunks.take k) ∧
    (assemble [{ rank := 0, size := 300 }, { rank := 1, size := 300 },
               { rank := 2, size := 300 }] 500).length = 1 := by
  refine ⟨?_, assembleGo_take budget rankedChunks 0, by decide⟩
  have h := assembleGo_size_le budget rankedChunks 0
  simpa [assemble] using h

/- ## Chunker

Modelled from the spec: the backend chunker (spec section 4.2, contract
split(text, maxSpan, overlap)) is not part of the provided source tree.  It
is modelled from the specification text: deterministic splitting into
overlapping passages of at most maxSpan characters, adjacent chunks sharing
overlap characters of context, ordinals strictly increasing from 0, empty
input yielding an empty sequence.  Successive chunks start at multiples of
the stride maxSpan - overlap. -/

/-- One chunk produced by the chunker: its ordinal, the character position of
its span, and its text (as a character list). -/
structure SChunk where
  ordinal : Nat
  start : Nat
  text : List Char
deriving DecidableEq, Repr

/-- Number of chunks covering n characters with the given stride: the
ceiling of n / stride. -/
def numChunks (n stride : Nat) : Nat :=
  (n + stride - 1) / stride

/-- Modelled from the spec: split(text, maxSpan, overlap).  Chunk i spans
characters i*(maxSpan-overlap) up to maxSpan characters onward, so adjacent
chunks overlap in overlap characters and ordinals are 0, 1, 2, ... . -/
def split (text : List Char) (maxSpan overlap : Nat) : List SChunk :=
  let stride := maxSpan - overlap
  (List.range (numChunks text.length stride)).map
    (fun i => { ordinal := i, start := i * stride,
                text := (text.drop (i * stride)).take maxSpan })

/-- Chunk id: a deterministic function of source id and ordinal position. -/
def chunkId (sourceId ordinal : Nat) : String :=
  toString sourceId ++ ":" ++ toString ordinal

/-- C5: chunk ordinals are exactly 0, 1, 2, ... (unique, strictly increasing,
contiguous from 0); every character position of the text is covered by the
span of some chunk (spans may overlap); and empty input yields an empty
sequence. -/
theorem chunk_ordinals_contiguous_and_cover (text : List Char)
    (maxSpan overlap j : Nat) (hov : overlap < maxSpan)
    (hj : j < text.length) :
    (split text maxSpan overlap).map (fun c => c.ordinal) =
      List.range (numChunks text.length (maxSpan - overlap)) ∧
    (∃ c ∈ split text maxSpan overlap,
      c.start ≤ j ∧ j < c.start + c.text.length) ∧
    split [] maxSpan overlap = [] := by
  have hstride : 0 < maxSpan - overlap := by omega
  refine ⟨?_, ?_, ?_⟩
  · simp only [split, List.map_map]
    exact List.map_id'' (fun i => rfl) _
  · set stride := maxSpan - overlap with hsdef
    have h1 : j / stride * stride ≤ j := Nat.div_mul_le_self j stride
    have h2 : j < j / stride * stride + stride := by
      have hm := Nat.div_add_mod j stride
      have hlt : j % stride < stride := Nat.mod_lt _ hstride
      rw [Nat.mul_comm stride (j / stride)] at hm
      omega
    have hi : j / stride < numChunks text.length stride := by
      have h3 : j / stride + 1 ≤ (text.length + stride - 1) / stride := by
        rw [Nat.le_div_iff_mul_le hstride, Nat.succ_mul]
        omega
      simpa [numChunks] using h3
    refine ⟨{ ordinal := j / stride, start := j / stride * stride,
              text := (text.drop (j / stride * stride)).take maxSpan }, ?_, h1, ?_⟩
    · simp only [split]
      exact List.mem_map.mpr ⟨j / stride, List.mem_range.mpr hi, rfl⟩
    · simp only [List.length_take, List.length_drop]
      rcases Nat.le_total maxSpan (text.length - j / stride * stride) with h | h
      · rw [Nat.min_eq_left h]
        omega
      · rw [Nat.min_eq_right h]
        omega
  · have h0 : numChunks 0 (maxSpan - overlap) = 0 :=
      Nat.div_eq_of_lt (by omega)
    simp [split, h0]

/-- Witness for C5 at a concrete input: an 8-character text with maxSpan 4
and overlap 1 (stride 3, hence 3 chunks). -/
theorem chunk_ordinals_contiguous_and_cover_witness :
    (1 < 4 ∧ 7 < ("abcdefgh".toList).length) ∧
    ((split "abcdefgh".toList 4 1).map (fun c => c.ordinal) =
      List.range (numChunks ("abcdefgh".toList).length (4 - 1)) ∧
    (∃ c ∈ split "abcdefgh".toList 4 1,
      c.start ≤ 7 ∧ 7 < c.start + c.text.length) ∧
    split [] 4 1 = []) :=
  ⟨by decide,
    chunk_ordinals_contiguous_and_cover "abcdefgh".toList 4 1 7 (by decide)
      (by decide)⟩

/- ## Vector index client

Modelled from the spec: the backend vector index client (spec section 4.3 and
the wire shapes of section 6) is not part of the provided source tree.  A
record is (id, vector, payload with scopeId, sourceId, ordinal); search
filters the collection by scopeFilter, scores every remaining record against
the query vector, orders by descending score with ties broken by ascending
ordinal, and returns the first topK matches.  Similarity is modelled as the
integer dot product, which preserves every ordering and filtering property at
stake here. -/

structure Payload where
  scopeId : String
  sourceId : Nat
  ordinal : Nat
deriving DecidableEq, Repr

structure VecRecord where
  rid : String
  vector : List Int
  payload : Payload
deriving DecidableEq, Repr

structure ScoredMatch where
  rid : String
  score : Int
  payload : Payload
deriving DecidableEq, Repr

/-- Similarity score of two vectors. -/
def dot (v w : List Int) : Int :=
  (List.zipWith (fun a b => a * b) v w).sum

/-- The search ordering: higher score first, ties broken by ascending chunk
ordinal. -/
def matchLE (a b : ScoredMatch) : Prop :=
  b.score < a.score ∨ (a.score = b.score ∧ a.payload.ordinal ≤ b.payload.ordinal)

instance : DecidableRel matchLE := fun a b =>
  inferInstanceAs (Decidable (b.score < a.score ∨
    (a.score = b.score ∧ a.payload.ordinal ≤ b.payload.ordinal)))

instance : IsTotal ScoredMatch matchLE :=
  ⟨fun a b => by simp only [matchLE]; omega⟩

instance : IsTrans ScoredMatch matchLE :=
  ⟨fun a b c hab hbc => by simp only [matchLE] at hab hbc ⊢; omega⟩

/-- Modelled from the spec: search(collection, queryVector, scopeFilter,
topK) — filter the collection to the records of the requested scope, score
them against the query, sort descending by score (ascending ordinal on ties),
return the first topK. -/
def search (records : List VecRecord) (queryVector : List Int)
    (scopeFilter : String) (topK : Nat) : List ScoredMatch :=
  (List.insertionSort matchLE
      ((records.filter (fun r => decide (r.payload.scopeId = scopeFilter))).map
        (fun r => { rid := r.rid, score := dot queryVector r.vector,
                    payload := r.payload }))).take topK

/-- C1: search never returns a record outside the scope filter — every
returned match has payload.scopeId equal to the requested scope, for every
collection, query vector and topK. -/
theorem search_scope_isolation (records : List VecRecord)
    (queryVector : List Int) (scopeFilter : String) (topK : Nat) :
    (search records queryVector scopeFilter topK).all
      (fun m => decide (m.payload.scopeId = scopeFilter)) = true := by
  rw [List.all_eq_true]
  intro m hm
  simp only [search] at hm
  have h1 := List.mem_of_mem_take hm
  rw [List.mem_insertionSort] at h1
  obtain ⟨r, hr, rfl⟩ := List.mem_map.mp h1
  exact (List.mem_filter.mp hr).2

/-- C3: the list returned by search is sorted by non-increasing similarity
score, and whenever two returned records have equal scores, the one with the
lower chunk ordinal comes first. -/
theorem search_sorted_by_score_then_ordinal (records : List VecRecord)
    (queryVector : List Int) (scopeFilter : String) (topK : Nat) :
    List.Pairwise
      (fun a b => b.score < a.score ∨
        (a.score = b.score ∧ a.payload.ordinal ≤ b.payload.ordinal))
      (search records queryVector scopeFilter topK) := by
  have hs := List.sorted_insertionSort matchLE
    ((records.filter (fun r => decide (r.payload.scopeId = scopeFilter))).map
      (fun r => { rid := r.rid, score := dot queryVector r.vector,
                  payload := r.payload }))
  exact List.Pairwise.sublist (List.take_sublist _ _) hs

/- ## Ingestion pipeline

Modelled from the spec: the backend ingestion pipeline (spec section 4.1) is
not part of the provided source tree.  ingest(source) is keyed by (scope id,
content hash): when a Source with that key already has status ok the call is
a no-op returning the existing source id; otherwise the text is extracted
(failing for empty content, which marks the source failed), chunked, embedded
and upserted, and the Source is recorded with status ok.  The content hash is
modelled as the content itself (a collision-free hash), and the embedding
gateway is an injected function. -/

inductive SourceStatus where
  | pending
  | ok
  | failed
deriving DecidableEq, Repr

structure Source where
  sid : Nat
  scopeId : String
  contentHash : String
  status : SourceStatus
deriving DecidableEq, Repr

structure StoredChunk where
  sourceId : Nat
  scopeId : String
  ordinal : Nat
  text : List Char
deriving DecidableEq, Repr

/-- Relational store plus vector index, as the pipeline writes them; nextId
is the id generator for new sources. -/
structure PipelineState where
  sources : List Source
  chunks : List StoredChunk
  vectors : List VecRecord
  nextId : Nat
deriving DecidableEq, Repr

/-- Modelled from the spec: the idempotence key of a source is its content
hash; a collision-free hash is modelled by the content itself. -/
def contentHash (content : String) : String := content

/-- Modelled from the spec: extraction fails (ExtractionError) for content
that cannot be converted to text, e.g. an empty transcript. -/
def extractText (raw : String) : Option String :=
  if raw.isEmpty then none else some raw

/-- Look up a source with the given scope and content hash that already has
status ok. -/
def findOkSource (sources : List Source) (scope hash : String) :
    Option Source :=
  sources.find? (fun s =>
    decide (s.scopeId = scope ∧ s.contentHash = hash ∧
      s.status = SourceStatus.ok))

/-- Modelled from the spec: ingest(source).  A source whose (scope, hash) key
already has an ok Source is a no-op returning the existing id; failed
extraction records a failed Source and indexes nothing; otherwise the text is
chunked, embedded and upserted, and an ok Source is recorded.  Returns the
new state and the source id. -/
def ingest (embed : String → List Int) (maxSpan overlap : Nat)
    (st : PipelineState) (scope raw : String) : PipelineState × Nat :=
  let hash := contentHash raw
  match findOkSource st.sources scope hash with
  | some s => (st, s.sid)
  | none =>
    match extractText raw with
    | none =>
      ({ st with
          sources := { sid := st.nextId, scopeId := scope,
                       contentHash := hash,
                       status := SourceStatus.failed } :: st.sources,
          nextId := st.nextId + 1 }, st.nextId)
    | some text =>
      let cs := split text.toList maxSpan overlap
      ({ sources := { sid := st.nextId, scopeId := scope,
                      contentHash := hash,
                      status := SourceStatus.ok } :: st.sources,
         chunks := (cs.map (fun c =>
             { sourceId := st.nextId, scopeId := scope,
               ordinal := c.ordinal, text := c.text })) ++ st.chunks,
         vectors := (cs.map (fun c =>
             { rid := chunkId st.nextId c.ordinal,
               vector := embed (String.mk c.text),
               payload := { scopeId := scope, sourceId := st.nextId,
                            ordinal := c.ordinal } })) ++ st.vectors,
         nextId := st.nextId + 1 }, st.nextId)

/-- C2: ingest is idempotent on the (scope, content hash) key.  Re-ingesting
the same content is a no-op returning the same source id and changing no
state (hence no duplicate Source, Chunks or vector records); when an ok
Source with the key already exists, even the first call is a no-op returning
the existing id; and content with a different hash not yet ingested creates a
new Source. -/
theorem ingest_idempotent (embed : String → List Int) (maxSpan overlap : Nat)
    (st : PipelineState) (scope raw rawB : String)
    (hextract : raw.isEmpty = false) (hne : raw ≠ rawB)
    (hfreshB : findOkSource st.sources scope (contentHash rawB) = none) :
    ingest embed maxSpan overlap
        (ingest embed maxSpan overlap st scope raw).1 scope raw =
      ingest embed maxSpan overlap st scope raw ∧
    (∀ s, findOkSource st.sources scope (contentHash raw) = some s →
      ingest embed maxSpan overlap st scope raw = (st, s.sid)) ∧
    (ingest embed maxSpan overlap
        (ingest embed maxSpan overlap st scope raw).1 scope rawB).1.sources.length =
      (ingest embed maxSpan overlap st scope raw).1.sources.length + 1 := by
  cases hfind : findOkSource st.sources scope (contentHash raw) with
  | some s =>
    have hp1 : ingest embed maxSpan overlap st scope raw = (st, s.sid) := by
      simp [ingest, hfind]
    refine ⟨?_, ?_, ?_⟩
    · rw [hp1]
      exact hp1
    · intro t ht
      cases ht
      exact hp1
    · rw [hp1]
      by_cases hB : rawB.isEmpty
      · simp [ingest, hfreshB, extractText, hB]
      · simp [ingest, hfreshB, extractText, hB]
  | none =>
    have hp1 : ingest embed maxSpan overlap st scope raw =
        ({ sources := { sid := st.nextId, scopeId := scope,
                        contentHash := contentHash raw,
                        status := SourceStatus.ok } :: st.sources,
           chunks := ((split raw.toList maxSpan overlap).map (fun c =>
               { sourceId := st.nextId, scopeId := scope,
                 ordinal := c.ordinal, text := c.text })) ++ st.chunks,
           vectors := ((split raw.toList maxSpan overlap).map (fun c =>
               { rid := chunkId st.nextId c.ordinal,
                 vector := embed (String.mk c.text),
                 payload := { scopeId := scope, sourceId := st.nextId,
                              ordinal := c.ordinal } })) ++ st.vectors,
           nextId := st.nextId + 1 }, st.nextId) := by
      simp [ingest, hfind, extractText, hextract]
    refine ⟨?_, ?_, ?_⟩
    · rw [hp1]
      have hhead : findOkSource
          ({ sid := st.nextId, scopeId := scope,
             contentHash := contentHash raw,
             status := SourceStatus.ok } :: st.sources) scope
          (contentHash raw) =
          some { sid := st.nextId, scopeId := scope,
                 contentHash := contentHash raw,
                 status := SourceStatus.ok } := by
        simp [findOkSource]
      simp [ingest, hhead]
    · intro t ht
      cases ht
    · rw [hp1]
      have hheadB : findOkSource
          ({ sid := st.nextId, scopeId := scope,
             contentHash := contentHash raw,
             status := SourceStatus.ok } :: st.sources) scope
          (contentHash rawB) = none := by
        simp only [findOkSource, contentHash]
        rw [List.find?_cons_of_neg]
        · simpa [findOkSource, contentHash] using hfreshB
        · simp [hne]
      by_cases hB : rawB.isEmpty
      · simp [ingest, hheadB, extractText, hB]
      · simp [ingest, hheadB, extractText, hB]

/-- Witness for C2 at concrete inputs: an empty initial state, content
"hello" re-ingested and then content "hello!" ingested for scope
"course-1". -/
theorem ingest_idempotent_witness :
    ("hello".isEmpty = false ∧ "hello" ≠ "hello!" ∧
      findOkSource ([] : List Source) "course-1" (contentHash "hello!") = none) ∧
    (ingest (fun _ => [1]) 4 1
        (ingest (fun _ => [1]) 4 1
          { sources := [], chunks := [], vectors := [], nextId := 0 }
          "course-1" "hello").1 "course-1" "hello" =
      ingest (fun _ => [1]) 4 1
        { sources := [], chunks := [], vectors := [], nextId := 0 }
        "course-1" "hello" ∧
    (∀ s, findOkSource ([] : List Source) "course-1" (contentHash "hello") =
        some s →
      ingest (fun _ => [1]) 4 1
          { sources := [], chunks := [], vectors := [], nextId := 0 }
          "course-1" "hello" =
        ({ sources := [], chunks := [], vectors := [], nextId := 0 }, s.sid)) ∧
    (ingest (fun _ => [1]) 4 1
        (ingest (fun _ => [1]) 4 1
          { sources := [], chunks := [], vectors := [], nextId := 0 }
          "course-1" "hello").1 "course-1" "hello!").1.sources.length =
      (ingest (fun _ => [1]) 4 1
        { sources := [], chunks := [], vectors := [], nextId := 0 }
        "course-1" "hello").1.sources.length + 1) :=
  ⟨⟨by decide, by decide, by decide⟩,
    ingest_idempotent (fun _ => [1]) 4 1
      { sources := [], chunks := [], vectors := [], nextId := 0 }
      "course-1" "hello" "hello!" (by decide) (by decide) (by decide)⟩

end Learnova
